import Mathlib

/-!
Verification of the data-processing helpers of the repository
(`data_processing_functions.py`) against its specification.

The embedding models a numeric column as `List (Option ℚ)` (a `none` entry is a
missing value, pandas NaN; exact rational arithmetic stands in for float64),
and a general column as `List (Option α)`.  A data frame is a row count
together with named columns.  Each Python function is embedded as a Lean
function whose value captures the observable behavior of the source function:
the content it prints to the console, the mutation it performs on the frame it
was given, and the value it returns to its caller (`retVal`).  Fallible frame
access (`df[column]` on a missing name raises `KeyError`) is embedded with
`Except`.
-/

namespace DataProc

/-- Non-null entries of a column, in row order (pandas skips NaN in
`isnull`-aware statistics: `quantile`, `median`, `value_counts`). -/
def nonnull {α : Type} (col : List (Option α)) : List α := col.filterMap id

/-- Number of null entries of a column (`df[c].isnull().sum()`). -/
def countNulls {α : Type} (col : List (Option α)) : ℕ :=
  col.countP (fun v => v.isNone)

/-- Round to the nearest integer with ties going to the even integer: the
rounding used by numpy and Python 3, hence by pandas `.round(2)`. -/
def roundHalfEven (x : ℚ) : ℤ :=
  if Int.fract x < 1/2 then Int.floor x
  else if 1/2 < Int.fract x then Int.floor x + 1
  else if 2 ∣ Int.floor x then Int.floor x else Int.floor x + 1

/-- Rounding to two decimal places (`.round(2)` in the source). -/
def round2 (x : ℚ) : ℚ := (roundHalfEven (x * 100) : ℚ) / 100

/-- The non-null values of a column in non-decreasing order.  Any sorted
permutation of a list is unique, so the choice of sorting algorithm does not
affect the value. -/
def sortedVals (col : List (Option ℚ)) : List ℚ :=
  (nonnull col).insertionSort (· ≤ ·)

/-- Linear interpolation of a list of samples at a fractional position `h`:
the value `(1 - g) * s[i] + g * s[i + 1]` with `i = floor h` and
`g = fract h`.  This is the interpolation rule of numpy percentiles. -/
def interpAt (s : List ℚ) (h : ℚ) : ℚ :=
  (1 - Int.fract h) * s.getD (Int.floor h).toNat 0 +
    Int.fract h * s.getD ((Int.floor h).toNat + 1) 0

/-- pandas `Series.quantile(q)`: linear interpolation at position
`q * (n - 1)` over the sorted non-null values (lines 48 to 49 and 121 to 122
of the source). -/
def quantileOf (col : List (Option ℚ)) (q : ℚ) : ℚ :=
  interpAt (sortedVals col) (q * ((sortedVals col).length - 1))

/-- pandas `Series.median()`: the midpoint of the two central order
statistics of the non-null values, which coincides with the linearly
interpolated `0.5` quantile; `none` models the NaN obtained on a column with
no non-null values. -/
def medianOf (col : List (Option ℚ)) : Option ℚ :=
  if nonnull col = [] then none else some (quantileOf col (1/2))

/-- A pandas DataFrame: a row count (`len(df)`) and named columns.  The
intended invariant, not needed by the theorems below, is that every column
has length `nrows` and the names are distinct. -/
structure Frame (α : Type) where
  nrows : ℕ
  cols : List (String × List (Option α))

/-- Embeds `check_missing_values` (source lines 7 to 32).  The printed
summary is returned: the rows (column name, null count, percentage rounded to
two decimals) of the columns having more than zero nulls, in column order,
together with the printed total number of such columns. -/
def check_missing_values {α : Type} (df : Frame α) :
    List (String × ℕ × ℚ) × ℕ :=
  let summary := df.cols.filterMap (fun nc =>
    let k := countNulls nc.2
    if 0 < k then some (nc.1, k, round2 (((k : ℚ) / (df.nrows : ℚ)) * 100))
    else none)
  (summary, summary.length)

/-- The fields of pandas `Series.describe()` on a numeric series without
missing entries.  The field `stdSq` is the square of the printed `std`
(the sample variance, with denominator `n - 1`); it is `none` when fewer than
two values exist, where describe prints NaN.  The square is recorded because
the square root of a rational is in general irrational. -/
structure DescribeStats where
  count : ℕ
  mean : ℚ
  stdSq : Option ℚ
  min : ℚ
  q25 : ℚ
  q50 : ℚ
  q75 : ℚ
  max : ℚ
  deriving DecidableEq

/-- pandas `Series.describe()` of a plain list of values (line 70 of the
source applies it to the outlier subset, which contains no NaN). -/
def describeOf (l : List ℚ) : DescribeStats :=
  let s := l.insertionSort (· ≤ ·)
  let n := l.length
  let m := l.sum / (n : ℚ)
  { count := n
    mean := m
    stdSq := if 2 ≤ n then some (((l.map (fun x => (x - m) ^ 2)).sum) / ((n : ℚ) - 1)) else none
    min := s.getD 0 0
    q25 := interpAt s ((1/4) * ((n : ℚ) - 1))
    q50 := interpAt s ((1/2) * ((n : ℚ) - 1))
    q75 := interpAt s ((3/4) * ((n : ℚ) - 1))
    max := s.getD (n - 1) 0 }

/-- The information printed by `check_outliers_column` when the column has
outliers: both bounds, the outlier count, the percentage of total rows (the
raw value; line 67 formats it with two decimals), the descriptive statistics
of the outlier subset, and the first ten outlier values in row order. -/
structure OutlierPrinted where
  lower_bound : ℚ
  upper_bound : ℚ
  num_outliers : ℕ
  percentage_outliers : ℚ
  stats : DescribeStats
  first_ten : List ℚ
  deriving DecidableEq

/-- Observable behavior of `check_outliers_column`: the printed report
(`none` when the no-outlier message is printed instead) and the Python
return value.  The source returns `None` on both paths (line 62 and the bare
`return` on line 75), although its docstring announces a dict. -/
structure CheckOutliersResult where
  printed : Option OutlierPrinted
  retVal : Option OutlierPrinted
  deriving DecidableEq

/-- Embeds `check_outliers_column` (source lines 34 to 75) on one numeric
column.  Bounds: `lower = max(0, Q1 - factor * IQR)` and
`upper = Q3 + factor * IQR`.  On a column with no non-null values the pandas
quantiles are NaN, every comparison with them is false, and the function
takes the no-outlier path; the first branch models this. -/
def check_outliers_column (col : List (Option ℚ)) (factor : ℚ) :
    CheckOutliersResult :=
  if nonnull col = [] then { printed := none, retVal := none }
  else
    let Q1 := quantileOf col (1/4)
    let Q3 := quantileOf col (3/4)
    let IQR := Q3 - Q1
    let lower_bound := max 0 (Q1 - factor * IQR)
    let upper_bound := Q3 + factor * IQR
    let outliers := (nonnull col).filter (fun x => decide (x < lower_bound ∨ x > upper_bound))
    let total_rows := col.length
    let num_outliers := outliers.length
    if num_outliers = 0 then { printed := none, retVal := none }
    else
      { printed := some
          { lower_bound := lower_bound
            upper_bound := upper_bound
            num_outliers := num_outliers
            percentage_outliers := ((num_outliers : ℚ) / (total_rows : ℚ)) * 100
            stats := describeOf outliers
            first_ten := outliers.take 10 }
        retVal := none }

/-- Default factor of `check_outliers_column` (its signature reads
`factor=1.5`). -/
def check_outliers_column_default (col : List (Option ℚ)) : CheckOutliersResult :=
  check_outliers_column col (3/2)

/-- Observable behavior of the two treatment functions: the column after the
in-place mutation, the median displayed in the printed confirmation message
(`none` models NaN), and the Python return value.  Both functions end in a
bare `return`, so they return `None`, as their docstrings document. -/
structure TreatResult where
  col : List (Option ℚ)
  printedMedian : Option ℚ
  retVal : Option ℚ
  deriving DecidableEq

/-- Embeds `treat_missing_values_column_median` (source lines 78 to 100):
`fillna` with the median of the non-null values.  When the column has no
non-null values the median is NaN and `fillna(NaN)` leaves the column
unchanged. -/
def treat_missing_values_column_median (col : List (Option ℚ)) : TreatResult :=
  match medianOf col with
  | none => { col := col, printedMedian := none, retVal := none }
  | some m =>
    { col := col.map (fun v => some (v.getD m))
      printedMedian := some m
      retVal := none }

/-- Embeds `treat_outliers_column_median` (source lines 103 to 131):
`np.where` over the bounds `Q1 - 1.5 * IQR` and `Q3 + 1.5 * IQR` (no clamp of
the lower bound, factor hard-coded to `1.5`; the function has no factor
parameter).  Null entries compare false with both bounds and are kept.  On a
column with no non-null values the bounds and the median are NaN, so nothing
is replaced. -/
def treat_outliers_column_median (col : List (Option ℚ)) : TreatResult :=
  let Q1 := quantileOf col (1/4)
  let Q3 := quantileOf col (3/4)
  let IQR := Q3 - Q1
  let lower_bound := Q1 - 3/2 * IQR
  let upper_bound := Q3 + 3/2 * IQR
  match medianOf col with
  | none => { col := col, printedMedian := none, retVal := none }
  | some m =>
    { col := col.map (fun v => v.map (fun x =>
        if x < lower_bound ∨ x > upper_bound then m else x))
      printedMedian := some m
      retVal := none }

/-- Number of values of a column strictly outside a closed interval: the
outlier count of source line 54 audited against externally supplied bounds. -/
def countOutliers (col : List (Option ℚ)) (lo hi : ℚ) : ℕ :=
  ((nonnull col).filter (fun x => decide (x < lo ∨ x > hi))).length

/-- One replacement pass of source line 128, against externally supplied
bounds and replacement value. -/
def replaceIfOutside (lo hi m : ℚ) (col : List (Option ℚ)) : List (Option ℚ) :=
  col.map (fun v => v.map (fun x => if x < lo ∨ x > hi then m else x))

/-- Modelled from the spec, section 4.4, for comparison with the source
function `treat_outliers_column_median`: the contract
`fill_outliers_with_median(table, column, factor=1.5)` with a configurable
factor and unclamped bounds `Q1 - factor * IQR` and `Q3 + factor * IQR`,
replacing every out-of-bound value with the median of the whole column.  The
source function has no factor parameter. -/
def fill_outliers_with_median_spec (col : List (Option ℚ)) (factor : ℚ) :
    List (Option ℚ) :=
  let Q1 := quantileOf col (1/4)
  let Q3 := quantileOf col (3/4)
  let IQR := Q3 - Q1
  let lower_bound := Q1 - factor * IQR
  let upper_bound := Q3 + factor * IQR
  match medianOf col with
  | none => col
  | some m => col.map (fun v => v.map (fun x =>
      if x < lower_bound ∨ x > upper_bound then m else x))

/-- Distinct values of a list in first-encountered order: the enumeration
order of the distinct values in `value_counts`. -/
def firstSeen {α : Type} [DecidableEq α] : List α → List α
  | [] => []
  | a :: r => a :: (firstSeen r).filter (fun b => decide (b ≠ a))

/-- Python `str()` of a non-negative float carrying at most two decimal
places (the rendering of a percentage rounded by `.round(2)` and converted
with `astype(str)`): the integer part, a dot, then the decimals with trailing
zeros dropped but at least one decimal digit kept. -/
def fmtFloat2 (x : ℚ) : String :=
  let k := (Int.floor (x * 100)).toNat
  if k % 100 = 0 then toString (k / 100) ++ ".0"
  else if k % 10 = 0 then toString (k / 100) ++ "." ++ toString (k % 100 / 10)
  else if k % 100 < 10 then toString (k / 100) ++ ".0" ++ toString (k % 100)
  else toString (k / 100) ++ "." ++ toString (k % 100)

/-- Comparison used to order frequency rows: row `a` comes before row `b`
when the count of `b` is at most the count of `a` (descending counts). -/
def rowGE {α : Type} (a b : α × ℕ × String) : Prop := b.2.1 ≤ a.2.1

instance {α : Type} : DecidableRel (@rowGE α) := fun a b => Nat.decLe b.2.1 a.2.1

instance {α : Type} : IsTotal (α × ℕ × String) rowGE :=
  ⟨fun a b => (le_total b.2.1 a.2.1).imp (fun h => h) (fun h => h)⟩

instance {α : Type} : IsTrans (α × ℕ × String) rowGE :=
  ⟨fun _ _ _ h1 h2 => le_trans h2 h1⟩

/-- Embeds `create_frequency_table` (source lines 135 to 164).
`value_counts` tabulates the distinct non-null values (dropna) with their
counts; `value_counts(normalize=True).mul(100).round(2)` gives the
percentage of the non-null entries, rounded to two decimals; the percentage
is rendered as a string with a trailing percent marker; rows are ordered by
count descending, ties kept in first-encountered order (stable sort). -/
def create_frequency_table {α : Type} [DecidableEq α] (col : List (Option α)) :
    List (α × ℕ × String) :=
  let vals := nonnull col
  let rows := (firstSeen vals).map (fun v =>
    (v, vals.count v,
      fmtFloat2 (round2 (((vals.count v : ℚ) / (vals.length : ℚ)) * 100)) ++ "%"))
  rows.insertionSort rowGE

/-- Error taxonomy for frame access: a missing column name (the Python
`KeyError` raised by `df[column]`, named `ColumnNotFoundError` in the spec
taxonomy). -/
inductive DataError where
  | columnNotFound
  deriving DecidableEq

/-- pandas `df[column]`: the first column carrying the requested name. -/
def getColumn {α : Type} (df : Frame α) (name : String) :
    Option (List (Option α)) :=
  (df.cols.find? (fun nc => nc.1 == name)).map (fun nc => nc.2)

/-- State-passing embedding of `check_outliers_column` invoked on
`df[column]`: the `KeyError` surfaces before any computation and the frame
is handed back unchanged (the function never mutates). -/
def check_outliers_frame (df : Frame ℚ) (name : String) (factor : ℚ) :
    Frame ℚ × Except DataError CheckOutliersResult :=
  match getColumn df name with
  | none => (df, Except.error DataError.columnNotFound)
  | some c => (df, Except.ok (check_outliers_column c factor))

/-- State-passing embedding of `create_frequency_table` invoked on
`df[column_name]`: the `KeyError` surfaces before any computation and the
frame is handed back unchanged (the function never mutates). -/
def create_frequency_table_frame {α : Type} [DecidableEq α] (df : Frame α)
    (name : String) : Frame α × Except DataError (List (α × ℕ × String)) :=
  match getColumn df name with
  | none => (df, Except.error DataError.columnNotFound)
  | some c => (df, Except.ok (create_frequency_table c))

/-! Helper lemmas about the sorted sample list and linear interpolation. -/

theorem sortedVals_sorted (col : List (Option ℚ)) :
    List.Sorted (· ≤ ·) (sortedVals col) :=
  List.sorted_insertionSort _ _

theorem sortedVals_length (col : List (Option ℚ)) :
    (sortedVals col).length = (nonnull col).length :=
  List.length_insertionSort _ _

theorem getD_mono_of_sorted {s : List ℚ} (hs : List.Sorted (· ≤ ·) s)
    {i j : ℕ} (hij : i ≤ j) (hj : j < s.length) :
    s.getD i 0 ≤ s.getD j 0 := by
  have hi : i < s.length := lt_of_le_of_lt hij hj
  have h1 : s.getD i 0 = s.get ⟨i, hi⟩ := by
    simp [List.getD_eq_getElem?_getD, List.getElem?_eq_getElem hi, List.get_eq_getElem]
  have h2 : s.getD j 0 = s.get ⟨j, hj⟩ := by
    simp [List.getD_eq_getElem?_getD, List.getElem?_eq_getElem hj, List.get_eq_getElem]
  rw [h1, h2]
  exact hs.rel_get_of_le (Fin.mk_le_mk.mpr hij)

theorem interpAt_mono {s : List ℚ} (hs : List.Sorted (· ≤ ·) s) {a b : ℚ}
    (h0 : 0 ≤ a) (hab : a ≤ b) (hb : b ≤ (s.length : ℚ) - 1) :
    interpAt s a ≤ interpAt s b := by
  have hlen1 : 1 ≤ s.length := by
    have h1 : (1 : ℚ) ≤ (s.length : ℚ) := by linarith
    exact_mod_cast h1
  have hfa0 : (0 : ℤ) ≤ Int.floor a := Int.floor_nonneg.mpr h0
  have hfb0 : (0 : ℤ) ≤ Int.floor b := Int.floor_nonneg.mpr (le_trans h0 hab)
  have hfab : Int.floor a ≤ Int.floor b := Int.floor_le_floor hab
  have hfbLen : Int.floor b ≤ (s.length : ℤ) - 1 := by
    have h2 : ((Int.floor b : ℚ)) ≤ (s.length : ℚ) - 1 := le_trans (Int.floor_le b) hb
    exact_mod_cast h2
  have hga0 : 0 ≤ Int.fract a := Int.fract_nonneg a
  have hga1 : Int.fract a < 1 := Int.fract_lt_one a
  have hgb0 : 0 ≤ Int.fract b := Int.fract_nonneg b
  have hgb1 : Int.fract b < 1 := Int.fract_lt_one b
  simp only [interpAt]
  set i := (Int.floor a).toNat with hidef
  set j := (Int.floor b).toNat with hjdef
  have hicast : ((i : ℤ)) = Int.floor a := Int.toNat_of_nonneg hfa0
  have hjcast : ((j : ℤ)) = Int.floor b := Int.toNat_of_nonneg hfb0
  have hjLen : j < s.length := by omega
  have hia : ((i : ℚ)) ≤ a := by
    have h3 := Int.floor_le a
    rw [← hicast] at h3
    exact_mod_cast h3
  rcases eq_or_lt_of_le hfab with heq | hlt
  · -- the two positions share the same integer part
    have hij : i = j := by omega
    have hgab : Int.fract a ≤ Int.fract b := by
      rw [← Int.self_sub_floor a, ← Int.self_sub_floor b, heq]
      linarith
    by_cases hi1 : j + 1 < s.length
    · have hx : s.getD j 0 ≤ s.getD (j + 1) 0 :=
        getD_mono_of_sorted hs (Nat.le_succ j) hi1
      rw [hij]
      nlinarith [mul_nonneg (sub_nonneg.mpr hgab) (sub_nonneg.mpr hx)]
    · have haeqb : a = b := by
        have hiLen : (s.length : ℚ) - 1 ≤ ((j : ℚ)) := by
          have h4 : s.length ≤ j + 1 := Nat.le_of_not_lt hi1
          have h5 : ((s.length : ℚ)) ≤ (j : ℚ) + 1 := by exact_mod_cast h4
          linarith
        have hja : ((j : ℚ)) ≤ a := by rw [← hij]; exact hia
        exact le_antisymm hab (le_trans hb (le_trans hiLen hja))
      rw [haeqb]
      have hij2 : i = j := by omega
      rw [hij2]
  · -- the integer part strictly increases
    have hij1 : i + 1 ≤ j := by omega
    have hi1Len : i + 1 < s.length := Nat.lt_of_le_of_lt hij1 hjLen
    have hx1 : s.getD i 0 ≤ s.getD (i + 1) 0 :=
      getD_mono_of_sorted hs (Nat.le_succ i) hi1Len
    have hx2 : s.getD (i + 1) 0 ≤ s.getD j 0 :=
      getD_mono_of_sorted hs hij1 hjLen
    have step1 : (1 - Int.fract a) * s.getD i 0 + Int.fract a * s.getD (i + 1) 0 ≤
        s.getD (i + 1) 0 := by
      nlinarith [mul_nonneg (by linarith : (0 : ℚ) ≤ 1 - Int.fract a)
        (sub_nonneg.mpr hx1)]
    by_cases hj1 : j + 1 < s.length
    · have hx3 : s.getD j 0 ≤ s.getD (j + 1) 0 :=
        getD_mono_of_sorted hs (Nat.le_succ j) hj1
      have step3 : s.getD j 0 ≤
          (1 - Int.fract b) * s.getD j 0 + Int.fract b * s.getD (j + 1) 0 := by
        nlinarith [mul_nonneg hgb0 (sub_nonneg.mpr hx3)]
      linarith
    · -- the upper position is the last sample, where the fractional part is zero
      have hjb : b = ((j : ℚ)) := by
        have hiLen : (s.length : ℚ) - 1 ≤ ((j : ℚ)) := by
          have h4 : s.length ≤ j + 1 := Nat.le_of_not_lt hj1
          have h5 : ((s.length : ℚ)) ≤ (j : ℚ) + 1 := by exact_mod_cast h4
          linarith
        have hjb2 : ((j : ℚ)) ≤ b := by
          have h6 := Int.floor_le b
          rw [← hjcast] at h6
          exact_mod_cast h6
        exact le_antisymm (le_trans hb hiLen) hjb2
      have hgb : Int.fract b = 0 := by
        rw [← Int.self_sub_floor b, ← hjcast]
        push_cast
        linarith
      rw [hgb]
      have step3 : (1 - (0 : ℚ)) * s.getD j 0 + 0 * s.getD (j + 1) 0 = s.getD j 0 := by
        ring
      rw [step3]
      linarith

theorem quantileOf_mono (col : List (Option ℚ)) (hc : nonnull col ≠ [])
    {q r : ℚ} (h0 : 0 ≤ q) (hqr : q ≤ r) (h1 : r ≤ 1) :
    quantileOf col q ≤ quantileOf col r := by
  have hlen : 1 ≤ (sortedVals col).length := by
    rw [sortedVals_length]
    exact List.length_pos.mpr hc
  have hn : (0 : ℚ) ≤ ((sortedVals col).length : ℚ) - 1 := by
    have h2 : (1 : ℚ) ≤ ((sortedVals col).length : ℚ) := by exact_mod_cast hlen
    linarith
  apply interpAt_mono (sortedVals_sorted col)
  · exact mul_nonneg h0 hn
  · exact mul_le_mul_of_nonneg_right hqr hn
  · have h3 : r * (((sortedVals col).length : ℚ) - 1) ≤
        1 * (((sortedVals col).length : ℚ) - 1) :=
      mul_le_mul_of_nonneg_right h1 hn
    linarith

theorem nonnull_map_opt (f : ℚ → ℚ) (col : List (Option ℚ)) :
    nonnull (col.map (fun v => v.map f)) = (nonnull col).map f := by
  induction col with
  | nil => rfl
  | cons v r ih => cases v <;> simp [nonnull] at ih ⊢ <;> exact ih

theorem medianOf_eq_some (col : List (Option ℚ)) (hc : nonnull col ≠ []) :
    medianOf col = some (quantileOf col (1/2)) := by
  simp [medianOf, hc]

theorem mem_firstSeen {α : Type} [DecidableEq α] (l : List α) (v : α) :
    v ∈ firstSeen l ↔ v ∈ l := by
  induction l with
  | nil => simp [firstSeen]
  | cons a r ih =>
    rw [firstSeen]
    by_cases hv : v = a
    · simp [hv]
    · simp only [List.mem_cons, hv, false_or, List.mem_filter, ih]
      simp [hv]

/-! Helper lemmas for evaluating the statistics on concrete columns. -/

theorem interpAt_natCast (s : List ℚ) (k : ℕ) : interpAt s (k : ℚ) = s.getD k 0 := by
  simp [interpAt, Int.fract_natCast, Int.floor_natCast]

theorem quantileOf_eval (col : List (Option ℚ)) (q : ℚ) (s : List ℚ) (k : ℕ)
    (hsort : sortedVals col = s) (hpos : q * ((s.length : ℚ) - 1) = (k : ℚ)) :
    quantileOf col q = s.getD k 0 := by
  rw [quantileOf, hsort, hpos, interpAt_natCast]

theorem medianOf_eval (col : List (Option ℚ)) (s : List ℚ) (k : ℕ)
    (hsort : sortedVals col = s) (hne : s ≠ [])
    (hpos : (1/2 : ℚ) * ((s.length : ℚ) - 1) = (k : ℚ)) :
    medianOf col = some (s.getD k 0) := by
  have hc : nonnull col ≠ [] := by
    intro h
    apply hne
    have hlen := sortedVals_length col
    rw [h, hsort] at hlen
    exact List.eq_nil_of_length_eq_zero hlen
  rw [medianOf_eq_some col hc, quantileOf_eval col _ s k hsort hpos]

theorem roundHalfEven_eval_lt {x : ℚ} {z : ℤ} (h1 : (z : ℚ) ≤ x)
    (h2 : x < (z : ℚ) + 1/2) : roundHalfEven x = z := by
  have hf : Int.floor x = z := Int.floor_eq_iff.mpr ⟨h1, by linarith⟩
  have hfr : Int.fract x < 1/2 := by
    rw [← Int.self_sub_floor, hf]
    linarith
  rw [roundHalfEven, if_pos hfr, hf]

theorem roundHalfEven_eval_gt {x : ℚ} {z : ℤ} (h1 : (z : ℚ) + 1/2 < x)
    (h2 : x < (z : ℚ) + 1) : roundHalfEven x = z + 1 := by
  have hf : Int.floor x = z := Int.floor_eq_iff.mpr ⟨by linarith, h2⟩
  have hfr : 1/2 < Int.fract x := by
    rw [← Int.self_sub_floor, hf]
    linarith
  rw [roundHalfEven, if_neg (not_lt.mpr (le_of_lt hfr)), if_pos hfr, hf]

theorem treat_missing_retVal_none (col : List (Option ℚ)) :
    (treat_missing_values_column_median col).retVal = none := by
  rw [treat_missing_values_column_median]
  cases medianOf col <;> rfl

theorem treat_outliers_retVal_none (col : List (Option ℚ)) :
    (treat_outliers_column_median col).retVal = none := by
  rw [treat_outliers_column_median]
  cases medianOf col <;> rfl

theorem check_outliers_retVal_none (col : List (Option ℚ)) (factor : ℚ) :
    (check_outliers_column col factor).retVal = none := by
  rw [check_outliers_column]
  split
  · rfl
  · dsimp only
    split <;> rfl

/-! Claim theorems. -/

/-- Claim C6: applying the missing-value remediation twice in succession
leaves the column identical to applying it once; when the column has a
median at all, the first pass leaves zero nulls, so the second call has
nothing to fill. -/
theorem claim_C6_fill_missing_idempotent (col : List (Option ℚ)) :
    (treat_missing_values_column_median
        (treat_missing_values_column_median col).col).col =
      (treat_missing_values_column_median col).col ∧
    (medianOf col ≠ none →
      countNulls (treat_missing_values_column_median col).col = 0) := by
  cases hm : medianOf col with
  | none =>
    constructor
    · simp [treat_missing_values_column_median, hm]
    · intro hcon
      exact absurd rfl hcon
  | some m =>
    have hcol1 : (treat_missing_values_column_median col).col =
        col.map (fun v => some (v.getD m)) := by
      simp [treat_missing_values_column_median, hm]
    constructor
    · rw [hcol1]
      cases hm2 : medianOf (col.map (fun v => some (v.getD m))) with
      | none => simp [treat_missing_values_column_median, hm2]
      | some m2 =>
        simp only [treat_missing_values_column_median, hm2, List.map_map]
        rfl
    · intro _
      rw [hcol1, countNulls, List.countP_eq_zero]
      intro a ha
      rw [List.mem_map] at ha
      obtain ⟨v, _, rfl⟩ := ha
      simp

/-- Witness for C6, at the section 8 example column of the spec. -/
theorem claim_C6_witness :
    medianOf [none, some 5, some 7, none, some 9] ≠ none ∧
    countNulls (treat_missing_values_column_median
        [none, some 5, some 7, none, some 9]).col = 0 := by
  have hmed : medianOf [none, some 5, some 7, none, some 9] = some 7 := by
    have h := medianOf_eval [none, some 5, some 7, none, some 9] [5, 7, 9] 1
      (by norm_num [sortedVals, nonnull, List.filterMap_cons]) (by simp) (by norm_num)
    simpa using h
  refine ⟨by rw [hmed]; simp, ?_⟩
  exact (claim_C6_fill_missing_idempotent
    [none, some 5, some 7, none, some 9]).2 (by rw [hmed]; simp)

/-- Claim C3 counterexample: on the section 8 example column the median used
for the replacement is 7 (it appears in the printed confirmation message),
yet the missing-value remediator returns None rather than the median: the
source function ends in a bare return. -/
theorem claim_C3_counterexample :
    (treat_missing_values_column_median
        [none, some 5, some 7, none, some 9]).printedMedian = some 7 ∧
    (treat_missing_values_column_median
        [none, some 5, some 7, none, some 9]).retVal ≠ some 7 := by
  have hmed : medianOf [none, some 5, some 7, none, some 9] = some 7 := by
    have h := medianOf_eval [none, some 5, some 7, none, some 9] [5, 7, 9] 1
      (by norm_num [sortedVals, nonnull, List.filterMap_cons]) (by simp) (by norm_num)
    simpa using h
  constructor
  · simp [treat_missing_values_column_median, hmed]
  · rw [treat_missing_retVal_none]
    simp

/-- Claim C3 amended: both remediators return None; the median they used is
reported to the caller through the printed confirmation message, and the
missing-value remediator fills every null entry with exactly that printed
median. -/
theorem claim_C3_remediators_print_median (col : List (Option ℚ)) (m : ℚ)
    (hm : medianOf col = some m) :
    (treat_missing_values_column_median col).retVal = none ∧
    (treat_outliers_column_median col).retVal = none ∧
    (treat_missing_values_column_median col).printedMedian = some m ∧
    (treat_outliers_column_median col).printedMedian = some m ∧
    ∀ i, i < col.length → col.getD i none = none →
      (treat_missing_values_column_median col).col.getD i none = some m := by
  refine ⟨treat_missing_retVal_none col, treat_outliers_retVal_none col, ?_, ?_, ?_⟩
  · simp [treat_missing_values_column_median, hm]
  · simp [treat_outliers_column_median, hm]
  · intro i hi hnull
    have hci : col[i] = none := by
      rw [List.getD_eq_getElem?_getD, List.getElem?_eq_getElem hi] at hnull
      simpa using hnull
    have hcol1 : (treat_missing_values_column_median col).col =
        col.map (fun v => some (v.getD m)) := by
      simp [treat_missing_values_column_median, hm]
    have hlen : i < (col.map (fun v => some (v.getD m))).length := by
      simpa using hi
    rw [hcol1, List.getD_eq_getElem?_getD, List.getElem?_eq_getElem hlen]
    simp [List.getElem_map, hci]

/-- Witness for the amended C3. -/
theorem claim_C3_witness :
    medianOf [none, some 5, some 7, none, some 9] = some 7 ∧
    (treat_missing_values_column_median
        [none, some 5, some 7, none, some 9]).col.getD 0 none = some 7 := by
  have hmed : medianOf [none, some 5, some 7, none, some 9] = some 7 := by
    have h := medianOf_eval [none, some 5, some 7, none, some 9] [5, 7, 9] 1
      (by norm_num [sortedVals, nonnull, List.filterMap_cons]) (by simp) (by norm_num)
    simpa using h
  exact ⟨hmed, (claim_C3_remediators_print_median _ 7 hmed).2.2.2.2 0
    (by norm_num) rfl⟩

/-- Claim C4: the outlier remediator replaces exactly the values strictly
outside the unclamped 1.5-IQR bounds with the median of the original column
(computed once, before any replacement, over all values including the values
about to be replaced); in-bound values and null entries are unchanged. -/
theorem claim_C4_outlier_replacement (col : List (Option ℚ)) (m : ℚ)
    (hm : medianOf col = some m) :
    (treat_outliers_column_median col).col.length = col.length ∧
    ∀ i, i < col.length →
      (treat_outliers_column_median col).col.getD i none =
        (col.getD i none).map (fun x =>
          if x < quantileOf col (1/4) -
              3/2 * (quantileOf col (3/4) - quantileOf col (1/4)) ∨
            x > quantileOf col (3/4) +
              3/2 * (quantileOf col (3/4) - quantileOf col (1/4))
          then m else x) := by
  have hcol1 : (treat_outliers_column_median col).col =
      col.map (fun v => v.map (fun x =>
        if x < quantileOf col (1/4) -
            3/2 * (quantileOf col (3/4) - quantileOf col (1/4)) ∨
          x > quantileOf col (3/4) +
            3/2 * (quantileOf col (3/4) - quantileOf col (1/4))
        then m else x)) := by
    simp [treat_outliers_column_median, hm]
  constructor
  · rw [hcol1]
    simp
  · intro i hi
    have hlen : i < (col.map (fun v => v.map (fun x =>
        if x < quantileOf col (1/4) -
            3/2 * (quantileOf col (3/4) - quantileOf col (1/4)) ∨
          x > quantileOf col (3/4) +
            3/2 * (quantileOf col (3/4) - quantileOf col (1/4))
        then m else x))).length := by
      simpa using hi
    rw [hcol1, List.getD_eq_getElem?_getD, List.getElem?_eq_getElem hlen,
      List.getD_eq_getElem?_getD, List.getElem?_eq_getElem hi]
    simp [List.getElem_map]

/-- Witness for C4, at the section 8 example column: the outlier 100 becomes
the median 2, the other entries stay. -/
theorem claim_C4_witness :
    medianOf [some 1, some 2, some 2, some 3, some 100] = some 2 ∧
    (treat_outliers_column_median
        [some 1, some 2, some 2, some 3, some 100]).col.getD 4 none = some 2 := by
  have hmed : medianOf [some 1, some 2, some 2, some 3, some 100] = some 2 := by
    have h := medianOf_eval [some 1, some 2, some 2, some 3, some 100]
      [1, 2, 2, 3, 100] 2
      (by norm_num [sortedVals, nonnull, List.filterMap_cons]) (by simp) (by norm_num)
    simpa using h
  have hq1 : quantileOf [some 1, some 2, some 2, some 3, some 100] (1/4) = 2 := by
    have h := quantileOf_eval [some 1, some 2, some 2, some 3, some 100] (1/4)
      [1, 2, 2, 3, 100] 1
      (by norm_num [sortedVals, nonnull, List.filterMap_cons]) (by norm_num)
    simpa using h
  have hq3 : quantileOf [some 1, some 2, some 2, some 3, some 100] (3/4) = 3 := by
    have h := quantileOf_eval [some 1, some 2, some 2, some 3, some 100] (3/4)
      [1, 2, 2, 3, 100] 3
      (by norm_num [sortedVals, nonnull, List.filterMap_cons]) (by norm_num)
    simpa using h
  refine ⟨hmed, ?_⟩
  have h := (claim_C4_outlier_replacement
    [some 1, some 2, some 2, some 3, some 100] 2 hmed).2 4 (by norm_num)
  rw [h]
  simp only [hq1, hq3]
  norm_num

/-- Claim C9: invoking the outlier audit or the frequency table on a column
name absent from the table fails with the missing-column error (the KeyError
of df lookup, ColumnNotFoundError in the spec taxonomy) and hands the table
back unchanged. -/
theorem claim_C9_missing_column (df : Frame ℚ) (name : String) (factor : ℚ)
    (h : ∀ nc ∈ df.cols, nc.1 ≠ name) :
    check_outliers_frame df name factor =
      (df, Except.error DataError.columnNotFound) ∧
    create_frequency_table_frame df name =
      (df, Except.error DataError.columnNotFound) := by
  have hfind : df.cols.find? (fun nc => nc.1 == name) = none := by
    rw [List.find?_eq_none]
    intro nc hnc
    simpa using h nc hnc
  constructor <;>
    simp [check_outliers_frame, create_frequency_table_frame, getColumn, hfind]

/-- Witness for C9 on a one-column frame and an absent name. -/
theorem claim_C9_witness :
    (∀ nc ∈ (Frame.mk 1 [("a", [some (1 : ℚ)])]).cols, nc.1 ≠ "b") ∧
    check_outliers_frame (Frame.mk 1 [("a", [some (1 : ℚ)])]) "b" (3/2) =
      (Frame.mk 1 [("a", [some (1 : ℚ)])],
        Except.error DataError.columnNotFound) ∧
    create_frequency_table_frame (Frame.mk 1 [("a", [some (1 : ℚ)])]) "b" =
      (Frame.mk 1 [("a", [some (1 : ℚ)])],
        Except.error DataError.columnNotFound) := by
  have habs : ∀ nc ∈ (Frame.mk 1 [("a", [some (1 : ℚ)])]).cols, nc.1 ≠ "b" := by
    intro nc hnc
    simp only [List.mem_singleton] at hnc
    rw [hnc]
    decide
  have h := claim_C9_missing_column (Frame.mk 1 [("a", [some (1 : ℚ)])]) "b"
    (3/2) habs
  exact ⟨habs, h.1, h.2⟩

/-- Claim C5: after one outlier-remediation pass, auditing the remediated
column against the bounds computed from the original column (same factor,
1.5) finds zero outliers, and a second replacement pass with those original
bounds is a no-op whatever replacement value it would use. -/
theorem claim_C5_one_pass_suffices (col : List (Option ℚ))
    (hc : nonnull col ≠ []) :
    countOutliers (treat_outliers_column_median col).col
        (quantileOf col (1/4) - 3/2 * (quantileOf col (3/4) - quantileOf col (1/4)))
        (quantileOf col (3/4) + 3/2 * (quantileOf col (3/4) - quantileOf col (1/4)))
      = 0 ∧
    ∀ m2 : ℚ, replaceIfOutside
        (quantileOf col (1/4) - 3/2 * (quantileOf col (3/4) - quantileOf col (1/4)))
        (quantileOf col (3/4) + 3/2 * (quantileOf col (3/4) - quantileOf col (1/4)))
        m2 (treat_outliers_column_median col).col =
      (treat_outliers_column_median col).col := by
  have hm : medianOf col = some (quantileOf col (1/2)) := medianOf_eq_some col hc
  have hq13 : quantileOf col (1/4) ≤ quantileOf col (3/4) :=
    quantileOf_mono col hc (by norm_num) (by norm_num) (by norm_num)
  have hq12 : quantileOf col (1/4) ≤ quantileOf col (1/2) :=
    quantileOf_mono col hc (by norm_num) (by norm_num) (by norm_num)
  have hq23 : quantileOf col (1/2) ≤ quantileOf col (3/4) :=
    quantileOf_mono col hc (by norm_num) (by norm_num) (by norm_num)
  set lo := quantileOf col (1/4) -
    3/2 * (quantileOf col (3/4) - quantileOf col (1/4)) with hlo
  set hi := quantileOf col (3/4) +
    3/2 * (quantileOf col (3/4) - quantileOf col (1/4)) with hhi
  have hcol1 : (treat_outliers_column_median col).col =
      col.map (fun v => v.map (fun x =>
        if x < lo ∨ x > hi then quantileOf col (1/2) else x)) := by
    simp only [treat_outliers_column_median, hm, hlo, hhi]
  have hin : ∀ x ∈ nonnull (treat_outliers_column_median col).col,
      lo ≤ x ∧ x ≤ hi := by
    rw [hcol1, nonnull_map_opt]
    intro x hx
    rw [List.mem_map] at hx
    obtain ⟨y, _, rfl⟩ := hx
    by_cases hout : y < lo ∨ y > hi
    · rw [if_pos hout]
      constructor
      · rw [hlo]
        linarith
      · rw [hhi]
        linarith
    · rw [if_neg hout]
      push_neg at hout
      exact hout
  constructor
  · rw [countOutliers, List.length_eq_zero, List.filter_eq_nil_iff]
    intro x hx
    have hxin := hin x hx
    simp only [decide_eq_true_eq, not_or, not_lt]
    exact ⟨hxin.1, hxin.2⟩
  · intro m2
    rw [replaceIfOutside]
    have hfix : ∀ v ∈ (treat_outliers_column_median col).col,
        (fun w => w.map (fun x => if x < lo ∨ x > hi then m2 else x)) v = id v := by
      intro v hv
      cases v with
      | none => rfl
      | some x =>
        have hx : x ∈ nonnull (treat_outliers_column_median col).col :=
          List.mem_filterMap.mpr ⟨some x, hv, rfl⟩
        have hxin := hin x hx
        simp only [id, Option.map_some']
        rw [if_neg]
        rintro (hcon | hcon) <;> linarith [hxin.1, hxin.2]
    rw [List.map_congr_left hfix, List.map_id]

/-- Witness for C5, at the section 8 example column. -/
theorem claim_C5_witness :
    nonnull ([some 1, some 2, some 2, some 3, some 100] : List (Option ℚ)) ≠ [] ∧
    countOutliers (treat_outliers_column_median
        [some 1, some 2, some 2, some 3, some 100]).col
      (quantileOf [some 1, some 2, some 2, some 3, some 100] (1/4) -
        3/2 * (quantileOf [some 1, some 2, some 2, some 3, some 100] (3/4) -
          quantileOf [some 1, some 2, some 2, some 3, some 100] (1/4)))
      (quantileOf [some 1, some 2, some 2, some 3, some 100] (3/4) +
        3/2 * (quantileOf [some 1, some 2, some 2, some 3, some 100] (3/4) -
          quantileOf [some 1, some 2, some 2, some 3, some 100] (1/4)))
      = 0 ∧
    replaceIfOutside
      (quantileOf [some 1, some 2, some 2, some 3, some 100] (1/4) -
        3/2 * (quantileOf [some 1, some 2, some 2, some 3, some 100] (3/4) -
          quantileOf [some 1, some 2, some 2, some 3, some 100] (1/4)))
      (quantileOf [some 1, some 2, some 2, some 3, some 100] (3/4) +
        3/2 * (quantileOf [some 1, some 2, some 2, some 3, some 100] (3/4) -
          quantileOf [some 1, some 2, some 2, some 3, some 100] (1/4)))
      7 (treat_outliers_column_median
        [some 1, some 2, some 2, some 3, some 100]).col =
      (treat_outliers_column_median
        [some 1, some 2, some 2, some 3, some 100]).col := by
  have hne : nonnull ([some 1, some 2, some 2, some 3, some 100] : List (Option ℚ)) ≠ [] := by
    simp [nonnull]
  exact ⟨hne,
    (claim_C5_one_pass_suffices [some 1, some 2, some 2, some 3, some 100] hne).1,
    (claim_C5_one_pass_suffices [some 1, some 2, some 2, some 3, some 100] hne).2 7⟩

/-- Claim C7: a row of the missing-value audit is exactly a column of the
frame with a strictly positive null count, carrying that count and the
percentage null count over row count times 100, rounded to two decimals; in
particular a zero-null column never yields a row. -/
theorem claim_C7_missing_audit {α : Type} (df : Frame α) (name : String)
    (k : ℕ) (p : ℚ) :
    (name, k, p) ∈ (check_missing_values df).1 ↔
      ∃ c, (name, c) ∈ df.cols ∧ k = countNulls c ∧ 0 < k ∧
        p = round2 (((k : ℚ) / (df.nrows : ℚ)) * 100) := by
  simp only [check_missing_values, List.mem_filterMap]
  constructor
  · rintro ⟨⟨n2, c⟩, hmem, heq⟩
    dsimp only at heq
    by_cases h0 : 0 < countNulls c
    · rw [if_pos h0] at heq
      rw [Option.some.injEq, Prod.mk.injEq] at heq
      obtain ⟨h1, h23⟩ := heq
      rw [Prod.mk.injEq] at h23
      obtain ⟨h2, h3⟩ := h23
      subst h1
      refine ⟨c, hmem, h2.symm, h2 ▸ h0, ?_⟩
      rw [← h3, h2]
    · rw [if_neg h0] at heq
      exact absurd heq (by simp)
  · rintro ⟨c, hmem, hk, h0, hp⟩
    refine ⟨(name, c), hmem, ?_⟩
    dsimp only
    rw [hk] at h0
    rw [if_pos h0, ← hk, hp]

/-- Witness for C7, at the section 8 example frame: column B carries two
nulls out of five rows, reported as 40 percent; column A yields no row. -/
theorem claim_C7_witness :
    ("B", 2, (40 : ℚ)) ∈ (check_missing_values (Frame.mk 5
      [("A", [some (1 : ℚ), some 1, some 1, some 1, some 1]),
       ("B", [none, none, some 2, some 3, some 4])])).1 := by
  apply (claim_C7_missing_audit _ "B" 2 40).mpr
  refine ⟨[none, none, some 2, some 3, some 4], by simp, by decide, by norm_num, ?_⟩
  rw [round2]
  rw [show ((((2 : ℕ) : ℚ) / ((5 : ℕ) : ℚ)) * 100) * 100 = ((4000 : ℤ) : ℚ) by
    norm_num]
  have hr : roundHalfEven ((4000 : ℤ) : ℚ) = 4000 :=
    roundHalfEven_eval_lt (by norm_num) (by norm_num)
  rw [hr]
  norm_num

/-- Claim C1 counterexample: the source remediator has no configurable
factor.  Interpreting the claim as the spec contract with factor 50 on the
column [0, 1, 2, 3, 100] (bounds -99 and 103, so nothing is out of bounds),
the spec contract keeps the column while the source remediator still
replaces 100 with the median 2: the two disagree, so the factor of the
remediator is not configurable. -/
theorem claim_C1_counterexample :
    fill_outliers_with_median_spec [some 0, some 1, some 2, some 3, some 100] 50 ≠
      (treat_outliers_column_median [some 0, some 1, some 2, some 3, some 100]).col := by
  have hq1 : quantileOf [some 0, some 1, some 2, some 3, some 100] (1/4) = 1 := by
    have h := quantileOf_eval [some 0, some 1, some 2, some 3, some 100] (1/4)
      [0, 1, 2, 3, 100] 1
      (by norm_num [sortedVals, nonnull, List.filterMap_cons]) (by norm_num)
    simpa using h
  have hq3 : quantileOf [some 0, some 1, some 2, some 3, some 100] (3/4) = 3 := by
    have h := quantileOf_eval [some 0, some 1, some 2, some 3, some 100] (3/4)
      [0, 1, 2, 3, 100] 3
      (by norm_num [sortedVals, nonnull, List.filterMap_cons]) (by norm_num)
    simpa using h
  have hmed : medianOf [some 0, some 1, some 2, some 3, some 100] = some 2 := by
    have h := medianOf_eval [some 0, some 1, some 2, some 3, some 100]
      [0, 1, 2, 3, 100] 2
      (by norm_num [sortedVals, nonnull, List.filterMap_cons]) (by simp) (by norm_num)
    simpa using h
  have hL : fill_outliers_with_median_spec
      [some 0, some 1, some 2, some 3, some 100] 50 =
      [some 0, some 1, some 2, some 3, some 100] := by
    simp only [fill_outliers_with_median_spec, hq1, hq3, hmed]
    norm_num
  have hR : (treat_outliers_column_median
      [some 0, some 1, some 2, some 3, some 100]).col =
      [some 0, some 1, some 2, some 3, some 2] := by
    simp only [treat_outliers_column_median, hq1, hq3, hmed]
    norm_num
  intro hcon
  rw [hL, hR] at hcon
  simp at hcon

/-- Claim C1 amended: for every numeric column, the auditor computes
lower = max(0, Q1 - factor * IQR) and upper = Q3 + factor * IQR with its
configurable factor (defaulting to 1.5), while the remediator replaces
against the unclamped bounds Q1 - 1.5 * IQR and Q3 + 1.5 * IQR, its factor
being fixed at 1.5. -/
theorem claim_C1_bound_policy (col : List (Option ℚ)) (factor : ℚ) (m : ℚ)
    (hm : medianOf col = some m) :
    (∀ rep, (check_outliers_column col factor).printed = some rep →
      rep.lower_bound = max 0 (quantileOf col (1/4) -
          factor * (quantileOf col (3/4) - quantileOf col (1/4))) ∧
      rep.upper_bound = quantileOf col (3/4) +
          factor * (quantileOf col (3/4) - quantileOf col (1/4))) ∧
    check_outliers_column_default col = check_outliers_column col (3/2) ∧
    (treat_outliers_column_median col).col =
      replaceIfOutside
        (quantileOf col (1/4) - 3/2 * (quantileOf col (3/4) - quantileOf col (1/4)))
        (quantileOf col (3/4) + 3/2 * (quantileOf col (3/4) - quantileOf col (1/4)))
        m col := by
  refine ⟨?_, rfl, ?_⟩
  · intro rep hrep
    rw [check_outliers_column] at hrep
    split at hrep
    · exact absurd hrep (by simp)
    · dsimp only at hrep
      split at hrep
      · exact absurd hrep (by simp)
      · rw [Option.some.injEq] at hrep
        rw [← hrep]
        exact ⟨rfl, rfl⟩
  · simp only [treat_outliers_column_median, replaceIfOutside, hm]

/-- Witness for the amended C1: on the column [0, 1, 2, 3, 100] the
remediator lower bound is -2 (negative, unclamped). -/
theorem claim_C1_witness :
    medianOf [some 0, some 1, some 2, some 3, some 100] = some 2 ∧
    (treat_outliers_column_median [some 0, some 1, some 2, some 3, some 100]).col =
      replaceIfOutside
        (quantileOf [some 0, some 1, some 2, some 3, some 100] (1/4) -
          3/2 * (quantileOf [some 0, some 1, some 2, some 3, some 100] (3/4) -
            quantileOf [some 0, some 1, some 2, some 3, some 100] (1/4)))
        (quantileOf [some 0, some 1, some 2, some 3, some 100] (3/4) +
          3/2 * (quantileOf [some 0, some 1, some 2, some 3, some 100] (3/4) -
            quantileOf [some 0, some 1, some 2, some 3, some 100] (1/4)))
        2 [some 0, some 1, some 2, some 3, some 100] := by
  have hmed : medianOf [some 0, some 1, some 2, some 3, some 100] = some 2 := by
    have h := medianOf_eval [some 0, some 1, some 2, some 3, some 100]
      [0, 1, 2, 3, 100] 2
      (by norm_num [sortedVals, nonnull, List.filterMap_cons]) (by simp) (by norm_num)
    simpa using h
  exact ⟨hmed,
    (claim_C1_bound_policy [some 0, some 1, some 2, some 3, some 100]
      (3/2) 2 hmed).2.2⟩

/-- The frequency table is the stable descending-count sort of the rows
enumerated in first-encountered order. -/
theorem create_frequency_table_eq {α : Type} [DecidableEq α]
    (col : List (Option α)) :
    create_frequency_table col = List.insertionSort rowGE
      ((firstSeen (nonnull col)).map (fun v =>
        (v, (nonnull col).count v,
          fmtFloat2 (round2 ((((nonnull col).count v : ℚ) /
            ((nonnull col).length : ℚ)) * 100)) ++ "%"))) := rfl

/-- Every row of the frequency table is the row of one distinct non-null
value, with the count and the rendered percentage of that value. -/
theorem mem_create_frequency_table {α : Type} [DecidableEq α]
    {col : List (Option α)} {r : α × ℕ × String}
    (hr : r ∈ create_frequency_table col) :
    r.1 ∈ nonnull col ∧ r.2.1 = (nonnull col).count r.1 ∧
      r.2.2 = fmtFloat2 (round2 ((((nonnull col).count r.1 : ℚ) /
        ((nonnull col).length : ℚ)) * 100)) ++ "%" := by
  rw [create_frequency_table_eq, List.mem_insertionSort, List.mem_map] at hr
  obtain ⟨w, hw, heq⟩ := hr
  subst heq
  exact ⟨(mem_firstSeen _ _).mp hw, rfl, rfl⟩

/-- Claim C8: the frequency table lists every distinct value of the column
exactly once, with its count and its percentage rounded to two decimals and
rendered with a trailing percent marker, ordered by count descending with
ties kept in first-encountered order (the sort is stable). -/
theorem claim_C8_frequency_table {α : Type} [DecidableEq α]
    (col : List (Option α)) :
    (∀ v : α, (∃ cnt s, (v, cnt, s) ∈ create_frequency_table col) ↔
      v ∈ nonnull col) ∧
    (∀ r ∈ create_frequency_table col,
      r.2.1 = (nonnull col).count r.1 ∧
      r.2.2 = fmtFloat2 (round2 ((((nonnull col).count r.1 : ℚ) /
        ((nonnull col).length : ℚ)) * 100)) ++ "%") ∧
    List.Pairwise rowGE (create_frequency_table col) ∧
    (∀ c : ℕ, (create_frequency_table col).filter (fun r => r.2.1 == c) =
      ((firstSeen (nonnull col)).map (fun v =>
        (v, (nonnull col).count v,
          fmtFloat2 (round2 ((((nonnull col).count v : ℚ) /
            ((nonnull col).length : ℚ)) * 100)) ++ "%"))).filter
        (fun r => r.2.1 == c)) := by
  refine ⟨?_, ?_, ?_, ?_⟩
  · intro v
    constructor
    · rintro ⟨cnt, s, hmem⟩
      exact (mem_create_frequency_table hmem).1
    · intro hv
      refine ⟨(nonnull col).count v,
        fmtFloat2 (round2 ((((nonnull col).count v : ℚ) /
          ((nonnull col).length : ℚ)) * 100)) ++ "%", ?_⟩
      rw [create_frequency_table_eq, List.mem_insertionSort, List.mem_map]
      exact ⟨v, (mem_firstSeen _ _).mpr hv, rfl⟩
  · intro r hr
    exact ⟨(mem_create_frequency_table hr).2.1, (mem_create_frequency_table hr).2.2⟩
  · rw [create_frequency_table_eq]
    exact List.sorted_insertionSort rowGE _
  · intro c
    rw [create_frequency_table_eq]
    set rows := (firstSeen (nonnull col)).map (fun v =>
      (v, (nonnull col).count v,
        fmtFloat2 (round2 ((((nonnull col).count v : ℚ) /
          ((nonnull col).length : ℚ)) * 100)) ++ "%")) with hrows
    have hall : ∀ r ∈ rows.filter (fun r => r.2.1 == c), r.2.1 = c := by
      intro r hrf
      rw [List.mem_filter] at hrf
      exact beq_iff_eq.mp hrf.2
    have hpair : List.Pairwise rowGE (rows.filter (fun r => r.2.1 == c)) := by
      apply List.pairwise_of_forall_mem_list
      intro a ha b hb
      show b.2.1 ≤ a.2.1
      rw [hall a ha, hall b hb]
    have hsubl : List.Sublist (rows.filter (fun r => r.2.1 == c))
        (List.insertionSort rowGE rows) :=
      List.sublist_insertionSort hpair (List.filter_sublist rows)
    have hsub2 : List.Sublist (rows.filter (fun r => r.2.1 == c))
        ((List.insertionSort rowGE rows).filter (fun r => r.2.1 == c)) := by
      have h3 := hsubl.filter (fun r => r.2.1 == c)
      rwa [List.filter_filter, show (fun (r : α × ℕ × String) =>
        (r.2.1 == c) && (r.2.1 == c)) = (fun r => r.2.1 == c) from
          funext (fun r => Bool.and_self _)] at h3
    have hperm2 : List.Perm
        ((List.insertionSort rowGE rows).filter (fun r => r.2.1 == c))
        (rows.filter (fun r => r.2.1 == c)) :=
      (List.perm_insertionSort rowGE rows).filter _
    exact (hsub2.eq_of_length hperm2.symm.length_eq).symm

/-- Witness for C8, at the section 8 example column. -/
theorem claim_C8_witness :
    List.Pairwise rowGE (create_frequency_table
      [some 'a', some 'b', some 'a', some 'a', some 'c']) ∧
    (∃ cnt s, ('b', cnt, s) ∈ create_frequency_table
      [some 'a', some 'b', some 'a', some 'a', some 'c']) := by
  refine ⟨(claim_C8_frequency_table
    [some 'a', some 'b', some 'a', some 'a', some 'c']).2.2.1, ?_⟩
  exact ((claim_C8_frequency_table
    [some 'a', some 'b', some 'a', some 'a', some 'c']).1 'b').mpr (by decide)

/-- Claim C10: the frequency table is computed over the non-null entries
only: every row value occurs among the non-null entries (a null never yields
a row), the count is the occurrence count among the non-null entries, and
the percentage is normalized by the number of non-null entries, not by the
number of rows of the table. -/
theorem claim_C10_frequency_ignores_nulls {α : Type} [DecidableEq α]
    (col : List (Option α)) :
    ∀ r ∈ create_frequency_table col,
      r.1 ∈ nonnull col ∧
      r.2.1 = (nonnull col).count r.1 ∧
      r.2.2 = fmtFloat2 (round2 (((r.2.1 : ℚ) /
        ((nonnull col).length : ℚ)) * 100)) ++ "%" := by
  intro r hr
  obtain ⟨h1, h2, h3⟩ := mem_create_frequency_table hr
  refine ⟨h1, h2, ?_⟩
  rw [h3, h2]

/-- Claim C2, evaluated at the failing input.  On the column
[1, 2, 2, 3, 100] with the default factor 1.5, the auditor computes and
prints the complete outlier report: bounds 0.5 and 4.5, one outlier, twenty
percent of the rows, the descriptive statistics of the outlier subset [100]
(count 1, mean 100, std NaN, min, quartiles and max all 100), and the first
ten outlier values [100]; but its Python return value is None — the bare
return on line 75 contradicts the docstring, which announces a dict carrying
this information. -/
theorem claim_C2_report_printed_not_returned :
    check_outliers_column [some 1, some 2, some 2, some 3, some 100] (3/2) =
      { printed := some
          { lower_bound := 1/2
            upper_bound := 9/2
            num_outliers := 1
            percentage_outliers := 20
            stats := { count := 1, mean := 100, stdSq := none,
                       min := 100, q25 := 100, q50 := 100, q75 := 100,
                       max := 100 }
            first_ten := [100] }
        retVal := none } := by
  have hq1 : quantileOf [some 1, some 2, some 2, some 3, some 100] (1/4) = 2 := by
    have h := quantileOf_eval [some 1, some 2, some 2, some 3, some 100] (1/4)
      [1, 2, 2, 3, 100] 1
      (by norm_num [sortedVals, nonnull, List.filterMap_cons]) (by norm_num)
    simpa using h
  have hq3 : quantileOf [some 1, some 2, some 2, some 3, some 100] (3/4) = 3 := by
    have h := quantileOf_eval [some 1, some 2, some 2, some 3, some 100] (3/4)
      [1, 2, 2, 3, 100] 3
      (by norm_num [sortedVals, nonnull, List.filterMap_cons]) (by norm_num)
    simpa using h
  have hnn : nonnull ([some 1, some 2, some 2, some 3, some 100] :
      List (Option ℚ)) = [1, 2, 2, 3, 100] := by
    norm_num [nonnull, List.filterMap_cons]
  rw [check_outliers_column, if_neg (by simp [hnn])]
  simp only [hnn, hq1, hq3]
  have hfil : List.filter (fun x => decide
      (x < max 0 ((2:ℚ) - 3/2 * (3 - 2)) ∨ x > (3:ℚ) + 3/2 * (3 - 2)))
      [1, 2, 2, 3, 100] = [100] := by
    norm_num [List.filter, max_def]
  rw [hfil]
  norm_num [describeOf, interpAt, Int.fract, CheckOutliersResult.mk.injEq,
    OutlierPrinted.mk.injEq, DescribeStats.mk.injEq, max_def]

/-- Witness for C10, at a column containing a null: the percentage of the
value a is 66.67 percent of the three non-null entries, not 50 percent of
the four rows. -/
theorem claim_C10_witness :
    (('a', 2, "66.67%") ∈ create_frequency_table
      [some 'a', none, some 'a', some 'b']) ∧
    ('a' ∈ nonnull [some 'a', none, some 'a', some 'b'] ∧
      (2 : ℕ) = (nonnull [some 'a', none, some 'a', some 'b']).count 'a' ∧
      "66.67%" = fmtFloat2 (round2 ((((2 : ℕ) : ℚ) /
        ((nonnull [some 'a', none, some 'a', some 'b']).length : ℚ)) * 100)) ++
          "%") := by
  have hmem : ('a', 2, "66.67%") ∈ create_frequency_table
      [some 'a', none, some 'a', some 'b'] := by
    rw [create_frequency_table_eq, List.mem_insertionSort, List.mem_map]
    refine ⟨'a', by decide, ?_⟩
    have hc : List.count 'a' (nonnull [some 'a', none, some 'a', some 'b']) = 2 := by
      decide
    have hl : (nonnull [some 'a', none, some 'a', some 'b']).length = 3 := by
      decide
    rw [Prod.mk.injEq, Prod.mk.injEq]
    refine ⟨rfl, hc, ?_⟩
    rw [hc, hl]
    have harg : ((2 : ℕ) : ℚ) / ((3 : ℕ) : ℚ) * 100 = (200 : ℚ) / 3 := by
      norm_num
    rw [harg, round2]
    rw [show ((200 : ℚ) / 3 * 100) = (20000 : ℚ) / 3 by norm_num]
    have hrd : roundHalfEven ((20000 : ℚ) / 3) = 6667 := by
      have h := @roundHalfEven_eval_gt ((20000 : ℚ) / 3) 6666 (by norm_num)
        (by norm_num)
      rw [h]
      norm_num
    rw [hrd]
    rw [fmtFloat2]
    rw [show (((6667 : ℤ) : ℚ) / 100 * 100) = ((6667 : ℤ) : ℚ) by norm_num,
      Int.floor_intCast]
    decide
  exact ⟨hmem, claim_C10_frequency_ignores_nulls
    [some 'a', none, some 'a', some 'b'] ('a', 2, "66.67%") hmem⟩

end DataProc
